import Mathlib

/-!
Verification of the token-price client wrappers (`birdeye.py`, `dexscreener.py`,
`common.py`, `custom_exceptions.py`, `utils/helpers.py`).

Shallow embedding conventions:
* Python exceptions become the `PyError` type; fallible code returns `Except PyError _`.
* JSON scalar payloads that the code only moves around (never inspects) are
  abstracted as `String`; JSON numbers that the code parses with `float(...)` or
  `Decimal(...)` are abstracted as the rational number the literal denotes (`ℚ`).
* Python dicts used as result maps become association lists; assignment
  `d[k] = v` becomes `setKey`, which replaces in place or appends at the end,
  matching Python dict insertion-order semantics.
* The HTTP transport and the external address validator (`solders` pubkey
  parsing) are collaborators outside `src/`; they are passed in as function
  parameters (`oracle`, `valid`).  A second component of each client's result
  records the list of network calls actually issued, so that "no network call
  occurs" is expressible.
* `or`-defaulting on falsy values (`x or ''`, `pairs or []`, `data or {}`)
  is modelled with `Option` and `Option.getD`, where `none` stands for the
  absent/null/falsy cases.
-/

/-- Python exceptions raised by the code (`custom_exceptions.py` plus the
built-in `KeyError`/`ValueError` that the code can raise). -/
inductive PyError where
  | keyError
  | noPositionsError
  | invalidSolanaAddress
  | invalidTokens
  | valueError
deriving DecidableEq

instance {ε α : Type} [DecidableEq ε] [DecidableEq α] : DecidableEq (Except ε α) := fun x y =>
  match x, y with
  | .error e, .error e' =>
    if h : e = e' then isTrue (by rw [h]) else isFalse (by simp [h])
  | .ok a, .ok b =>
    if h : a = b then isTrue (by rw [h]) else isFalse (by simp [h])
  | .error _, .ok _ => isFalse (by simp)
  | .ok _, .error _ => isFalse (by simp)

/-- `PriceInfo = namedtuple("PriceInfo", ["value", "liquidity"])` from
`common.py`; used at two different field types by the two clients. -/
structure PriceInfo (α β : Type) where
  value : α
  liquidity : β
deriving DecidableEq

/-- `SOL_MINT` from `vars.constants`.  Modelled from the spec: `vars/` is not
under `src/`; the spec treats it as the chain's opaque native-asset mint
constant, consumed only by equality comparison in PoolSelector. -/
def SOL_MINT : String := "So11111111111111111111111111111111111111112"

/-- One raw pool record as consumed by `find_largest_pool_with_sol` and
`fetch_prices_dex` (a JSON dict, fields possibly absent).
`quoteTokenAddress` is doubly optional: the outer `none` models an absent
`quoteToken` key (`entry["quoteToken"]` raises `KeyError`), `some none` models
a present `quoteToken` dict without an `address` key (the inner subscript
raises), and `some (some q)` a present address `q`.  `liquidityUsd` and
`liquidityQuote` hold the rational that `float(...)`/`Decimal(...)` parse from
the field; `none` models an absent `liquidity` dict or absent sub-key. -/
structure RawPool where
  baseTokenAddress : Option String
  quoteTokenAddress : Option (Option String)
  liquidityUsd : Option ℚ
  liquidityQuote : Option ℚ
  dexId : Option String
deriving DecidableEq

/-- The parsed `liquidity.usd` of a pool with the code's default:
`float(entry.get("liquidity", {}).get("usd", 0))`. -/
def usdVal (e : RawPool) : ℚ := e.liquidityUsd.getD 0

/-- Whether a pool passes the base/quote filter of the selector:
`baseToken.address == address and quoteToken.address == SOL_MINT`. -/
def poolMatches (address : String) (e : RawPool) : Bool :=
  e.baseTokenAddress = some address && e.quoteTokenAddress = some (some SOL_MINT)

/-- Whether `entry["quoteToken"]["address"]` would succeed on this record. -/
def hasQuoteAddr (e : RawPool) : Bool :=
  match e.quoteTokenAddress with
  | some (some _) => true
  | _ => false

/-- The scan loop of `find_largest_pool_with_sol` (dexscreener.py:213-219),
with the running `max_entry`/`max_liquidity_usd` state made explicit.
`best = none` models `max_entry = {}` (no match recorded yet).  The `and` in
the filter short-circuits, so `entry["quoteToken"]` is only subscripted when
the base address matches. -/
def findLargestPoolGo (address : String) :
    List RawPool → Option RawPool → ℚ → Except PyError (Option RawPool)
  | [], best, _ => .ok best
  | e :: rest, best, maxUsd =>
    if e.baseTokenAddress = some address then
      match e.quoteTokenAddress with
      | none => .error .keyError
      | some none => .error .keyError
      | some (some q) =>
        if q = SOL_MINT then
          if maxUsd < usdVal e then findLargestPoolGo address rest (some e) (usdVal e)
          else findLargestPoolGo address rest best maxUsd
        else findLargestPoolGo address rest best maxUsd
    else findLargestPoolGo address rest best maxUsd

/-- `DexScreenerClient.find_largest_pool_with_sol` (dexscreener.py:208-220):
scan with `max_entry = {}` and `max_liquidity_usd = -1`. -/
def find_largest_pool_with_sol (tokenPairs : List RawPool) (address : String) :
    Except PyError (Option RawPool) :=
  findLargestPoolGo address tokenPairs none (-1)

/-- Python dict assignment `d[k] = v` on an insertion-ordered association
list: replace the value in place if the key exists, else append. -/
def setKey {α β : Type} [DecidableEq α] (k : α) (v : β) : List (α × β) → List (α × β)
  | [] => [(k, v)]
  | (k', v') :: rest => if k' = k then (k, v) :: rest else (k', v') :: setKey k v rest

/-- Python dict lookup `d.get(k)` on the association-list model. -/
def lookupKey {α β : Type} [DecidableEq α] (k : α) : List (α × β) → Option β
  | [] => none
  | (k', v) :: rest => if k' = k then some v else lookupKey k rest

/-- The truthy `data` object of a BirdEye price response
(`response_data.get('data') or {}` followed by `if data:`): `value` and
`updateHumanTime` are its possibly-absent sub-fields.  A falsy/absent/null
`data` is modelled by the oracle returning `none` instead of `some _`. -/
structure BirdData where
  value : Option String
  updateHumanTime : Option String
deriving DecidableEq

/-- Inner mapping produced by `BirdEyeClient.fetch_prices` for one token. -/
abbrev BirdInner := List (String × PriceInfo (Option String) (Option String))

/-- Result mapping of `BirdEyeClient.fetch_prices`. -/
abbrev BirdResult := List (String × BirdInner)

/-- The loop body of `BirdEyeClient.fetch_prices` (birdeye.py:94-114).
Per address: `_validate_token_address` (empty check, then syntax check), then
the network call (logged in the second component), then the truthy-`data`
extraction `{update_human_time: PriceInfo(value=value, liquidity=value)}`. -/
def fetchPricesGo (valid : String → Bool)
    (oracle : String → Except PyError (Option BirdData)) (acc : BirdResult) :
    List String → Except PyError BirdResult × List String
  | [] => (.ok acc, [])
  | a :: rest =>
    if a = "" then (.error .noPositionsError, [])
    else if valid a = false then (.error .invalidSolanaAddress, [])
    else
      match oracle a with
      | .error e => (.error e, [a])
      | .ok odata =>
        let acc' := match odata with
          | none => acc
          | some d => setKey a [(d.updateHumanTime.getD "", ⟨d.value, d.value⟩)] acc
        let res := fetchPricesGo valid oracle acc' rest
        (res.1, a :: res.2)

/-- `BirdEyeClient.fetch_prices` (birdeye.py:79-114).  Note the source never
validates the list as a whole (it has no `_validate_token_addresses` call);
it starts with `token_prices = {}` and loops. -/
def fetch_prices (valid : String → Bool)
    (oracle : String → Except PyError (Option BirdData)) (addrs : List String) :
    Except PyError BirdResult × List String :=
  fetchPricesGo valid oracle [] addrs

/-- Inner mapping produced by `fetch_prices_dex` for one token. -/
abbrev DexInner := List (ℚ × PriceInfo String ℚ)

/-- Result mapping of `fetch_prices_dex`. -/
abbrev DexResult := List (String × DexInner)

/-- The loop body of `DexScreenerClient.fetch_prices_dex`
(dexscreener.py:142-158).  Per address: `_call_api` = validate + network call
(logged), then `pairs = overview.get('pairs') or []`, the pool scan, and on a
truthy `max_entry` the assignment
`{liquidity_quote: PriceInfo(value=str(dexId or ""), liquidity=liquidity_usd)}`. -/
def fetchPricesDexGo (valid : String → Bool)
    (oracle : String → Except PyError (Option (List RawPool))) (acc : DexResult) :
    List String → Except PyError DexResult × List String
  | [] => (.ok acc, [])
  | a :: rest =>
    if a = "" then (.error .noPositionsError, [])
    else if valid a = false then (.error .invalidSolanaAddress, [])
    else
      match oracle a with
      | .error e => (.error e, [a])
      | .ok resp =>
        match find_largest_pool_with_sol (resp.getD []) a with
        | .error e => (.error e, [a])
        | .ok maxEntry =>
          let acc' := match maxEntry with
            | none => acc
            | some p =>
              setKey a [(p.liquidityQuote.getD 0,
                         ⟨p.dexId.getD "", p.liquidityUsd.getD 0⟩)] acc
          let res := fetchPricesDexGo valid oracle acc' rest
          (res.1, a :: res.2)

/-- `DexScreenerClient.fetch_prices_dex` (dexscreener.py:130-158).  Like
`fetch_prices`, the source never validates the list as a whole. -/
def fetch_prices_dex (valid : String → Bool)
    (oracle : String → Except PyError (Option (List RawPool))) (addrs : List String) :
    Except PyError DexResult × List String :=
  fetchPricesDexGo valid oracle [] addrs

instance : DecidableEq BirdInner := fun a b => List.hasDecEq a b

instance : DecidableEq BirdResult := fun a b => List.hasDecEq a b

instance : DecidableEq DexInner := fun a b => List.hasDecEq a b

instance : DecidableEq DexResult := fun a b => List.hasDecEq a b

/-- Python's `str.upper()` on the ASCII method strings the dispatcher sees,
modelled as per-character uppercasing. -/
def pyUpper (s : String) : String := String.mk (s.data.map Char.toUpper)

/-- The HTTP verb actually dispatched to the `requests` library. -/
inductive HttpMethod where
  | get
  | post
deriving DecidableEq

/-- A raw transport response: status code plus opaque JSON body. -/
structure HttpResp where
  status : Nat
  body : String
deriving DecidableEq

/-- `BirdEyeClient._make_api_call` (birdeye.py:28-39): `match method.upper()`
chooses `requests.get`/`requests.post` or raises `ValueError`; then
`_validate_response` raises `InvalidTokens` on a non-200 status and the JSON
body is returned.  The second component logs the HTTP requests performed. -/
def _make_api_call (transport : HttpMethod → HttpResp) (method : String) :
    Except PyError String × List HttpMethod :=
  if pyUpper method = "GET" then
    let resp := transport HttpMethod.get
    ((if resp.status ≠ 200 then .error .invalidTokens else .ok resp.body), [HttpMethod.get])
  else if pyUpper method = "POST" then
    let resp := transport HttpMethod.post
    ((if resp.status ≠ 200 then .error .invalidTokens else .ok resp.body), [HttpMethod.post])
  else (.error .valueError, [])

/-- `TokenInfo = namedtuple('TokenInfo', ['address', 'name', 'symbol'])`. -/
structure TokenInfo where
  address : String
  name : String
  symbol : String
deriving DecidableEq

/-- `Txns = namedtuple('Txns', ['buys', 'sells'])`. -/
structure Txns where
  buys : Int
  sells : Int
deriving DecidableEq

/-- `TransactionData = namedtuple('TransactionData', ['m5','h1','h6','h24'])`. -/
structure TransactionData where
  m5 : Txns
  h1 : Txns
  h6 : Txns
  h24 : Txns
deriving DecidableEq

/-- `Volume = namedtuple('Volume', ['h24','h6','h1','m5'])`. -/
structure Volume where
  h24 : ℚ
  h6 : ℚ
  h1 : ℚ
  m5 : ℚ
deriving DecidableEq

/-- `PriceChange = namedtuple('PriceChange', ['m5','h1','h6','h24'])`. -/
structure PriceChange where
  m5 : ℚ
  h1 : ℚ
  h6 : ℚ
  h24 : ℚ
deriving DecidableEq

/-- `Liquidity = namedtuple('Liquidity', ['usd','base','quote'])`. -/
structure Liquidity where
  usd : ℚ
  base : ℚ
  quote : ℚ
deriving DecidableEq

/-- `Website = namedtuple('Website', ['label','url'])`. -/
structure Website where
  label : String
  url : String
deriving DecidableEq

/-- `Social = namedtuple('Social', ['type','url'])`. -/
structure Social where
  type : String
  url : String
deriving DecidableEq

/-- `Info = namedtuple('Info', ['imageUrl','websites','socials'])`. -/
structure Info where
  imageUrl : String
  websites : List Website
  socials : List Social
deriving DecidableEq

/-- `Pair` from `common.py`: one normalized trading pool. -/
structure Pair where
  chainId : String
  dexId : String
  url : String
  pairAddress : String
  baseToken : TokenInfo
  quoteToken : TokenInfo
  priceNative : String
  priceUsd : String
  txns : TransactionData
  volume : Volume
  priceChange : PriceChange
  liquidity : Liquidity
  fdv : ℚ
  pairCreatedAt : Int
  info : Info
deriving DecidableEq

/-- `TokenOverview = namedtuple('TokenOverview', ['schemaVersion', 'pairs'])`. -/
structure TokenOverview where
  schemaVersion : String
  pairs : List Pair
deriving DecidableEq

/-- The raw `txns` sub-object of a pair, each window possibly absent
(`pair['txns']['m5']` etc. raise `KeyError` when absent). -/
structure RawTxns where
  m5 : Option Txns
  h1 : Option Txns
  h6 : Option Txns
  h24 : Option Txns
deriving DecidableEq

/-- The raw `info` sub-object of a pair, each sub-field possibly absent. -/
structure RawInfo where
  imageUrl : Option String
  websites : Option (List Website)
  socials : Option (List Social)
deriving DecidableEq

/-- One raw element of the `pairs` array as consumed by
`fetch_token_overview`: every field the normalization subscripts is
`Option`-al, `none` modelling an absent key (subscripting raises `KeyError`).
Sub-records reached through `**`-splatting are abstracted as already
well-formed when present. -/
structure RawPair where
  chainId : Option String
  dexId : Option String
  url : Option String
  pairAddress : Option String
  baseToken : Option TokenInfo
  quoteToken : Option TokenInfo
  priceNative : Option String
  priceUsd : Option String
  txns : Option RawTxns
  volume : Option Volume
  priceChange : Option PriceChange
  liquidity : Option Liquidity
  fdv : Option ℚ
  pairCreatedAt : Option Int
  info : Option RawInfo
deriving DecidableEq

/-- The raw overview object: `schemaVersion` possibly absent
(`token_data['schemaVersion']` raises), `pairs` possibly absent/null
(`token_data.get('pairs') or []` defaults). -/
structure RawOverview where
  schemaVersion : Option String
  pairs : Option (List RawPair)
deriving DecidableEq

/-- A mandatory field access `d['k']`: `KeyError` when the key is absent. -/
def req {α : Type} : Option α → Except PyError α
  | none => .error .keyError
  | some a => .ok a

/-- Construction of one `Pair` namedtuple by direct field projection
(dexscreener.py:175-200 and identically birdeye.py:144-169): every access is
mandatory. -/
def normalizePair (p : RawPair) : Except PyError Pair := do
  let chainId ← req p.chainId
  let dexId ← req p.dexId
  let url ← req p.url
  let pairAddress ← req p.pairAddress
  let baseToken ← req p.baseToken
  let quoteToken ← req p.quoteToken
  let priceNative ← req p.priceNative
  let priceUsd ← req p.priceUsd
  let txnsRaw ← req p.txns
  let m5 ← req txnsRaw.m5
  let h1 ← req txnsRaw.h1
  let h6 ← req txnsRaw.h6
  let h24 ← req txnsRaw.h24
  let volume ← req p.volume
  let priceChange ← req p.priceChange
  let liquidity ← req p.liquidity
  let fdv ← req p.fdv
  let pairCreatedAt ← req p.pairCreatedAt
  let infoRaw ← req p.info
  let imageUrl ← req infoRaw.imageUrl
  let websites ← req infoRaw.websites
  let socials ← req infoRaw.socials
  .ok ⟨chainId, dexId, url, pairAddress, baseToken, quoteToken, priceNative, priceUsd,
       ⟨m5, h1, h6, h24⟩, volume, priceChange, liquidity, fdv, pairCreatedAt,
       ⟨imageUrl, websites, socials⟩⟩

/-- The `for pair in token_data.get('pairs') or []` loop accumulating
normalized pairs; any failure aborts the whole loop. -/
def normalizePairs : List RawPair → Except PyError (List Pair)
  | [] => .ok []
  | p :: rest => do
    let pr ← normalizePair p
    let prs ← normalizePairs rest
    .ok (pr :: prs)

/-- The shared normalization body of `fetch_token_overview`
(dexscreener.py:173-206, birdeye.py:142-175): normalize all pairs, then read
the mandatory `token_data['schemaVersion']`. -/
def fetchTokenOverviewCore (raw : RawOverview) : Except PyError TokenOverview := do
  let pairs ← normalizePairs (raw.pairs.getD [])
  match raw.schemaVersion with
  | none => .error .keyError
  | some sv => .ok ⟨sv, pairs⟩

/-- `DexScreenerClient.fetch_token_overview` (dexscreener.py:160-206):
`_call_api` validates the address, performs the logged network call and the
200-check (the oracle's error), then the response is normalized directly. -/
def fetch_token_overview_dex (valid : String → Bool)
    (oracle : String → Except PyError RawOverview) (address : String) :
    Except PyError TokenOverview × List String :=
  if address = "" then (.error .noPositionsError, [])
  else if valid address = false then (.error .invalidSolanaAddress, [])
  else
    match oracle address with
    | .error e => (.error e, [address])
    | .ok raw => (fetchTokenOverviewCore raw, [address])

/-- `BirdEyeClient.fetch_token_overview` (birdeye.py:116-175): validate, call,
then normalize `response.get('data') or {}` (a falsy/absent `data` becomes the
empty object, whose `schemaVersion` subscript then raises). -/
def fetch_token_overview_bird (valid : String → Bool)
    (oracle : String → Except PyError (Option RawOverview)) (address : String) :
    Except PyError TokenOverview × List String :=
  if address = "" then (.error .noPositionsError, [])
  else if valid address = false then (.error .invalidSolanaAddress, [])
  else
    match oracle address with
    | .error e => (.error e, [address])
    | .ok resp => (fetchTokenOverviewCore (resp.getD ⟨none, none⟩), [address])

/-- The target token address of the spec's three-pool PoolSelector fixture. -/
def fixtureAddr : String := "TOKENADDR111111111111111111111111111111111"

/-- The rational denoted by the fixture string `"150.5"` (= 301/2), as parsed
by both `float` and `Decimal`. -/
def usd150_5 : ℚ := mkRat 301 2

/-- Fixture pool A: matches the base/quote filter, `liquidity.usd = "50"`. -/
def poolA : RawPool := ⟨some fixtureAddr, some (some SOL_MINT), some 50, some 5, some "orca"⟩

/-- Fixture pool B: matches the filter, `liquidity.usd = "150.5"`,
`liquidity.quote = "10"`, `dexId = "raydium"`. -/
def poolB : RawPool := ⟨some fixtureAddr, some (some SOL_MINT), some usd150_5, some 10, some "raydium"⟩

/-- Fixture pool C: does not match the filter at all. -/
def poolC : RawPool := ⟨some "OTHER", some (some "OTHERQUOTE"), some 1, some 1, some "meteora"⟩

/-- A pool that passes the base/quote filter but whose parsed `liquidity.usd`
is negative (below the scan's `-1` sentinel). -/
def negPool : RawPool := ⟨some fixtureAddr, some (some SOL_MINT), some (-5), some 1, some "x"⟩

/-- A pool whose `baseToken.address` matches but whose `quoteToken` key is
absent: `entry["quoteToken"]` raises `KeyError`. -/
def poolNoQuote : RawPool := ⟨some fixtureAddr, none, some 1, some 1, some "orca"⟩

/-- A pool whose `quoteToken` dict is present but has no `address` key. -/
def poolQuoteNoAddr : RawPool := ⟨some fixtureAddr, some none, some 1, some 1, some "orca"⟩

/-- A pool with no `baseToken`: tolerated (filter is simply false). -/
def poolNoBase : RawPool := ⟨none, some (some SOL_MINT), some 1, some 1, some "orca"⟩

/-- A matching pool with no `liquidity.usd`: tolerated via the `0` default. -/
def poolNoUsd : RawPool := ⟨some fixtureAddr, some (some SOL_MINT), none, some 1, some "orca"⟩

/-- A transport collaborator that always answers 200 with body `"{}"`. -/
def okTransport : HttpMethod → HttpResp := fun _ => ⟨200, "{}"⟩

/-- A raw pair element missing, among others, its `dexId` and `baseToken`
keys: normalization of any overview containing it must fail. -/
def rawBadPair : RawPair :=
  ⟨some "solana", none, some "u", some "pa", none, none, some "1", some "2",
   none, none, none, none, none, none, none⟩

/-- Presence of every field that `normalizePair` mandatorily accesses. -/
def pairComplete (p : RawPair) : Bool :=
  p.chainId.isSome && p.dexId.isSome && p.url.isSome && p.pairAddress.isSome &&
  p.baseToken.isSome && p.quoteToken.isSome && p.priceNative.isSome && p.priceUsd.isSome &&
  (match p.txns with
   | none => false
   | some t => t.m5.isSome && t.h1.isSome && t.h6.isSome && t.h24.isSome) &&
  p.volume.isSome && p.priceChange.isSome && p.liquidity.isSome && p.fdv.isSome &&
  p.pairCreatedAt.isSome &&
  (match p.info with
   | none => false
   | some i => i.imageUrl.isSome && i.websites.isSome && i.socials.isSome)

theorem poolMatches_eq_true {a : String} {e : RawPool} :
    poolMatches a e = true ↔
      e.baseTokenAddress = some a ∧ e.quoteTokenAddress = some (some SOL_MINT) := by
  simp [poolMatches]

theorem findLargestPoolGo_cons (a : String) (e : RawPool) (rest : List RawPool)
    (best : Option RawPool) (m : ℚ) :
    findLargestPoolGo a (e :: rest) best m =
      if e.baseTokenAddress = some a then
        match e.quoteTokenAddress with
        | none => .error .keyError
        | some none => .error .keyError
        | some (some q) =>
          if q = SOL_MINT then
            if m < usdVal e then findLargestPoolGo a rest (some e) (usdVal e)
            else findLargestPoolGo a rest best m
          else findLargestPoolGo a rest best m
      else findLargestPoolGo a rest best m := rfl

/-- Characterization of the scan loop: starting from accumulator
`best`/`maxUsd = m`, either no pool in the remainder strictly beats `m` and
the accumulator is returned, or the winner is the first pool attaining the
maximum, all matching pools before it being strictly smaller and all after it
no larger. -/
theorem findLargestPoolGo_spec (a : String) (l : List RawPool) :
    ∀ (best : Option RawPool) (m : ℚ),
    (∀ e ∈ l, e.baseTokenAddress = some a → hasQuoteAddr e = true) →
    ∃ r, findLargestPoolGo a l best m = .ok r ∧
      ((r = best ∧ ∀ e ∈ l, poolMatches a e = true → usdVal e ≤ m) ∨
       (∃ p l₁ l₂, l = l₁ ++ p :: l₂ ∧ r = some p ∧ poolMatches a p = true ∧
          m < usdVal p ∧
          (∀ e ∈ l₁, poolMatches a e = true → usdVal e < usdVal p) ∧
          (∀ e ∈ l₂, poolMatches a e = true → usdVal e ≤ usdVal p))) := by
  induction l with
  | nil =>
    intro best m _
    exact ⟨best, rfl, .inl ⟨rfl, by simp⟩⟩
  | cons e rest ih =>
    intro best m hk
    have hke : ∀ e' ∈ rest, e'.baseTokenAddress = some a → hasQuoteAddr e' = true :=
      fun e' he' => hk e' (List.mem_cons_of_mem _ he')
    by_cases hb : e.baseTokenAddress = some a
    · have hq : hasQuoteAddr e = true := hk e (List.mem_cons_self _ _) hb
      match hqa : e.quoteTokenAddress with
      | none => simp [hasQuoteAddr, hqa] at hq
      | some none => simp [hasQuoteAddr, hqa] at hq
      | some (some q) =>
        by_cases hsol : q = SOL_MINT
        · subst hsol
          have hmatch : poolMatches a e = true := poolMatches_eq_true.mpr ⟨hb, hqa⟩
          by_cases hgt : m < usdVal e
          · obtain ⟨r, hr, hcase⟩ := ih (some e) (usdVal e) hke
            refine ⟨r, ?_, ?_⟩
            · rw [findLargestPoolGo_cons, if_pos hb, hqa]
              simp only [if_pos rfl, if_pos hgt]
              exact hr
            · rcases hcase with ⟨hrb, hall⟩ | ⟨p, l₁, l₂, hsplit, hrp, hpm, hm, hpre, hsuf⟩
              · exact .inr ⟨e, [], rest, rfl, hrb, hmatch, hgt, by simp, hall⟩
              · refine .inr ⟨p, e :: l₁, l₂, by rw [hsplit]; rfl, hrp, hpm,
                  lt_trans hgt hm, ?_, hsuf⟩
                intro e' he' hm'
                rcases List.mem_cons.mp he' with rfl | he'
                · exact hm
                · exact hpre e' he' hm'
          · obtain ⟨r, hr, hcase⟩ := ih best m hke
            have hle : usdVal e ≤ m := not_lt.mp hgt
            refine ⟨r, ?_, ?_⟩
            · rw [findLargestPoolGo_cons, if_pos hb, hqa]
              simp only [if_pos rfl, if_neg hgt]
              exact hr
            · rcases hcase with ⟨hrb, hall⟩ | ⟨p, l₁, l₂, hsplit, hrp, hpm, hm, hpre, hsuf⟩
              · refine .inl ⟨hrb, ?_⟩
                intro e' he' hm'
                rcases List.mem_cons.mp he' with rfl | he'
                · exact hle
                · exact hall e' he' hm'
              · refine .inr ⟨p, e :: l₁, l₂, by rw [hsplit]; rfl, hrp, hpm, hm, ?_, hsuf⟩
                intro e' he' hm'
                rcases List.mem_cons.mp he' with rfl | he'
                · exact lt_of_le_of_lt hle hm
                · exact hpre e' he' hm'
        · have hnm : poolMatches a e = false := by
            cases hpm : poolMatches a e
            · rfl
            · obtain ⟨_, hq2⟩ := poolMatches_eq_true.mp hpm
              rw [hqa] at hq2
              exact absurd (by injection (by injection hq2)) hsol
          obtain ⟨r, hr, hcase⟩ := ih best m hke
          refine ⟨r, ?_, ?_⟩
          · rw [findLargestPoolGo_cons, if_pos hb, hqa]
            simp only [if_neg hsol]
            exact hr
          · rcases hcase with ⟨hrb, hall⟩ | ⟨p, l₁, l₂, hsplit, hrp, hpm, hm, hpre, hsuf⟩
            · refine .inl ⟨hrb, ?_⟩
              intro e' he' hm'
              rcases List.mem_cons.mp he' with rfl | he'
              · rw [hnm] at hm'; exact absurd hm' (by simp)
              · exact hall e' he' hm'
            · refine .inr ⟨p, e :: l₁, l₂, by rw [hsplit]; rfl, hrp, hpm, hm, ?_, hsuf⟩
              intro e' he' hm'
              rcases List.mem_cons.mp he' with rfl | he'
              · rw [hnm] at hm'; exact absurd hm' (by simp)
              · exact hpre e' he' hm'
    · have hnm : poolMatches a e = false := by
        cases hpm : poolMatches a e
        · rfl
        · exact absurd (poolMatches_eq_true.mp hpm).1 hb
      obtain ⟨r, hr, hcase⟩ := ih best m hke
      refine ⟨r, ?_, ?_⟩
      · rw [findLargestPoolGo_cons, if_neg hb]
        exact hr
      · rcases hcase with ⟨hrb, hall⟩ | ⟨p, l₁, l₂, hsplit, hrp, hpm, hm, hpre, hsuf⟩
        · refine .inl ⟨hrb, ?_⟩
          intro e' he' hm'
          rcases List.mem_cons.mp he' with rfl | he'
          · rw [hnm] at hm'; exact absurd hm' (by simp)
          · exact hall e' he' hm'
        · refine .inr ⟨p, e :: l₁, l₂, by rw [hsplit]; rfl, hrp, hpm, hm, ?_, hsuf⟩
          intro e' he' hm'
          rcases List.mem_cons.mp he' with rfl | he'
          · rw [hnm] at hm'; exact absurd hm' (by simp)
          · exact hpre e' he' hm'

/-- C1 (amended): for pool lists in which every base-matching record has a
`quoteToken.address` key (no `KeyError`) and every parsed `liquidity.usd` is
nonnegative (missing treated as `0`), `find_largest_pool_with_sol` returns
`none` exactly when no pool passes the base/quote filter, and otherwise a
filter-passing pool of maximal parsed `liquidity.usd`, the first-encountered
one among equals (strictly-greater comparison).  The three-pool fixture
returns pool B. -/
theorem find_largest_pool_spec :
    (∀ (l : List RawPool) (a : String),
      (∀ e ∈ l, e.baseTokenAddress = some a → hasQuoteAddr e = true) →
      (∀ e ∈ l, 0 ≤ usdVal e) →
      ∃ r, find_largest_pool_with_sol l a = .ok r ∧
        ((r = none ↔ ∀ e ∈ l, poolMatches a e = false) ∧
         ∀ p, r = some p → poolMatches a p = true ∧
           (∀ e ∈ l, poolMatches a e = true → usdVal e ≤ usdVal p) ∧
           ∃ l₁ l₂, l = l₁ ++ p :: l₂ ∧
             ∀ e ∈ l₁, poolMatches a e = true → usdVal e < usdVal p)) ∧
    find_largest_pool_with_sol [poolA, poolB, poolC] fixtureAddr = .ok (some poolB) := by
  constructor
  · intro l a hk hn
    obtain ⟨r, hr, hcase⟩ := findLargestPoolGo_spec a l none (-1) hk
    refine ⟨r, hr, ?_, ?_⟩
    · constructor
      · intro hrn e he
        cases hpm : poolMatches a e
        · rfl
        · exfalso
          rcases hcase with ⟨_, hall⟩ | ⟨p, l₁, l₂, hsplit, hrp, hpm', _⟩
          · have h1 := hall e he hpm
            have h0 := hn e he
            have : (0 : ℚ) ≤ -1 := le_trans h0 h1
            norm_num at this
          · rw [hrn] at hrp
            exact Option.noConfusion hrp
      · intro hnone
        rcases hcase with ⟨hrb, _⟩ | ⟨p, l₁, l₂, hsplit, hrp, hpm, _⟩
        · exact hrb
        · exfalso
          have hpmem : p ∈ l := by
            rw [hsplit]; exact List.mem_append_right _ (List.mem_cons_self _ _)
          rw [hnone p hpmem] at hpm
          exact Bool.noConfusion hpm
    · intro p hrp'
      rcases hcase with ⟨hrb, _⟩ | ⟨p', l₁, l₂, hsplit, hrp, hpm, _, hpre, hsuf⟩
      · rw [hrb] at hrp'
        exact Option.noConfusion hrp'
      · rw [hrp] at hrp'
        have hpp : p' = p := Option.some.inj hrp'
        subst hpp
        refine ⟨hpm, ?_, l₁, l₂, hsplit, hpre⟩
        intro e he hm'
        rw [hsplit] at he
        rcases List.mem_append.mp he with he₁ | he₂
        · exact le_of_lt (hpre e he₁ hm')
        · rcases List.mem_cons.mp he₂ with rfl | he₂
          · exact le_refl _
          · exact hsuf e he₂ hm'
  · decide

/-- Witness for C1: the amended theorem applied to the concrete three-pool
fixture, hypotheses discharged by evaluation. -/
theorem find_largest_pool_spec_witness :
    ∃ r, find_largest_pool_with_sol [poolA, poolB, poolC] fixtureAddr = .ok r ∧
      ((r = none ↔ ∀ e ∈ [poolA, poolB, poolC], poolMatches fixtureAddr e = false) ∧
       ∀ p, r = some p → poolMatches fixtureAddr p = true ∧
         (∀ e ∈ [poolA, poolB, poolC], poolMatches fixtureAddr e = true → usdVal e ≤ usdVal p) ∧
         ∃ l₁ l₂, [poolA, poolB, poolC] = l₁ ++ p :: l₂ ∧
           ∀ e ∈ l₁, poolMatches fixtureAddr e = true → usdVal e < usdVal p) :=
  find_largest_pool_spec.1 [poolA, poolB, poolC] fixtureAddr (by decide) (by decide)

/-- Counterexample to C1 as stated: `negPool` passes the base/quote filter
(so the claim demands it be returned as the unique liquidity-maximizing
match), yet the scan returns the empty value, because its parsed
`liquidity.usd = -5` never beats the `-1` sentinel. -/
theorem find_largest_pool_negative_liquidity :
    poolMatches fixtureAddr negPool = true ∧
    find_largest_pool_with_sol [negPool] fixtureAddr = .ok none := by decide

/-- C2: the empty-string address given to either client's
`fetch_token_overview` raises `NoPositionsError` with zero transport calls;
but the empty address list given to `fetch_prices` / `fetch_prices_dex` does
NOT raise — both return the empty mapping with zero transport calls, although
`fetch_prices`' docstring documents `NoPositionsError` for "no tokens". -/
theorem empty_input_behavior :
    (∀ (valid : String → Bool) (oracle : String → Except PyError RawOverview),
       fetch_token_overview_dex valid oracle "" = (.error PyError.noPositionsError, [])) ∧
    (∀ (valid : String → Bool) (oracle : String → Except PyError (Option RawOverview)),
       fetch_token_overview_bird valid oracle "" = (.error PyError.noPositionsError, [])) ∧
    (∀ (valid : String → Bool) (oracle : String → Except PyError (Option BirdData)),
       fetch_prices valid oracle [] = (.ok [], [])) ∧
    (∀ (valid : String → Bool) (oracle : String → Except PyError (Option (List RawPool))),
       fetch_prices_dex valid oracle [] = (.ok [], [])) :=
  ⟨fun _ _ => rfl, fun _ _ => rfl, fun _ _ => rfl, fun _ _ => rfl⟩

theorem fetchPricesGo_cons (valid : String → Bool)
    (oracle : String → Except PyError (Option BirdData)) (acc : BirdResult)
    (a : String) (rest : List String) :
    fetchPricesGo valid oracle acc (a :: rest) =
      if a = "" then (.error .noPositionsError, [])
      else if valid a = false then (.error .invalidSolanaAddress, [])
      else
        match oracle a with
        | .error e => (.error e, [a])
        | .ok odata =>
          let acc' := match odata with
            | none => acc
            | some d => setKey a [(d.updateHumanTime.getD "", ⟨d.value, d.value⟩)] acc
          let res := fetchPricesGo valid oracle acc' rest
          (res.1, a :: res.2) := rfl

theorem fetchPricesDexGo_cons (valid : String → Bool)
    (oracle : String → Except PyError (Option (List RawPool))) (acc : DexResult)
    (a : String) (rest : List String) :
    fetchPricesDexGo valid oracle acc (a :: rest) =
      if a = "" then (.error .noPositionsError, [])
      else if valid a = false then (.error .invalidSolanaAddress, [])
      else
        match oracle a with
        | .error e => (.error e, [a])
        | .ok resp =>
          match find_largest_pool_with_sol (resp.getD []) a with
          | .error e => (.error e, [a])
          | .ok maxEntry =>
            let acc' := match maxEntry with
              | none => acc
              | some p =>
                setKey a [(p.liquidityQuote.getD 0,
                           ⟨p.dexId.getD "", p.liquidityUsd.getD 0⟩)] acc
            let res := fetchPricesDexGo valid oracle acc' rest
            (res.1, a :: res.2) := rfl

/-- On a list of well-behaved addresses followed by an invalid one, the
`fetch_prices` loop performs exactly the network calls for the leading
addresses and then aborts with the validation error of the invalid one. -/
theorem fetchPricesGo_fail_fast (valid : String → Bool)
    (oracle : String → Except PyError (Option BirdData)) (bad : String) (l₂ : List String)
    (hbad : bad = "" ∨ valid bad = false) :
    ∀ (l₁ : List String) (acc : BirdResult),
    (∀ a ∈ l₁, a ≠ "" ∧ valid a = true) →
    (∀ a ∈ l₁, ∃ d, oracle a = .ok d) →
    fetchPricesGo valid oracle acc (l₁ ++ bad :: l₂) =
      (.error (if bad = "" then PyError.noPositionsError else PyError.invalidSolanaAddress), l₁) := by
  intro l₁
  induction l₁ with
  | nil =>
    intro acc _ _
    by_cases hbe : bad = ""
    · subst hbe
      simp [fetchPricesGo_cons]
    · rcases hbad with hb | hb
      · exact absurd hb hbe
      · simp [fetchPricesGo_cons, hbe, hb]
  | cons a rest ih =>
    intro acc hv ho
    obtain ⟨hne, hva⟩ := hv a (List.mem_cons_self _ _)
    obtain ⟨d, hd⟩ := ho a (List.mem_cons_self _ _)
    have hv' : ∀ x ∈ rest, x ≠ "" ∧ valid x = true :=
      fun x hx => hv x (List.mem_cons_of_mem _ hx)
    have ho' : ∀ x ∈ rest, ∃ d', oracle x = .ok d' :=
      fun x hx => ho x (List.mem_cons_of_mem _ hx)
    rw [List.cons_append, fetchPricesGo_cons, if_neg hne]
    rw [if_neg (by rw [hva]; exact fun h => Bool.noConfusion h)]
    rw [hd]
    simp only []
    rw [ih _ hv' ho']

/-- Dex analogue of `fetchPricesGo_fail_fast`; the leading addresses must
also let the pool scan complete without a `KeyError`. -/
theorem fetchPricesDexGo_fail_fast (valid : String → Bool)
    (oracle : String → Except PyError (Option (List RawPool))) (bad : String) (l₂ : List String)
    (hbad : bad = "" ∨ valid bad = false) :
    ∀ (l₁ : List String) (acc : DexResult),
    (∀ a ∈ l₁, a ≠ "" ∧ valid a = true) →
    (∀ a ∈ l₁, ∃ resp, oracle a = .ok resp ∧
       ∃ r, find_largest_pool_with_sol (resp.getD []) a = .ok r) →
    fetchPricesDexGo valid oracle acc (l₁ ++ bad :: l₂) =
      (.error (if bad = "" then PyError.noPositionsError else PyError.invalidSolanaAddress), l₁) := by
  intro l₁
  induction l₁ with
  | nil =>
    intro acc _ _
    by_cases hbe : bad = ""
    · subst hbe
      simp [fetchPricesDexGo_cons]
    · rcases hbad with hb | hb
      · exact absurd hb hbe
      · simp [fetchPricesDexGo_cons, hbe, hb]
  | cons a rest ih =>
    intro acc hv ho
    obtain ⟨hne, hva⟩ := hv a (List.mem_cons_self _ _)
    obtain ⟨resp, hresp, r, hr⟩ := ho a (List.mem_cons_self _ _)
    have hv' : ∀ x ∈ rest, x ≠ "" ∧ valid x = true :=
      fun x hx => hv x (List.mem_cons_of_mem _ hx)
    have ho' : ∀ x ∈ rest, ∃ resp', oracle x = .ok resp' ∧
        ∃ r', find_largest_pool_with_sol (resp'.getD []) x = .ok r' :=
      fun x hx => ho x (List.mem_cons_of_mem _ hx)
    rw [List.cons_append, fetchPricesDexGo_cons, if_neg hne]
    rw [if_neg (by rw [hva]; exact fun h => Bool.noConfusion h)]
    rw [hresp]
    simp only []
    rw [hr]
    simp only []
    rw [ih _ hv' ho']

/-- C3 (amended): each address is validated immediately before its own
network call; both bulk operations abort at the first invalid address with
`NoPositionsError` (empty string) or `InvalidSolanaAddress` (bad syntax),
having performed network calls exactly for the addresses preceding it —
zero when the invalid address comes first, but not in general. -/
theorem invalid_address_fail_fast :
    (∀ (valid : String → Bool) (oracle : String → Except PyError (Option BirdData))
       (l₁ l₂ : List String) (bad : String),
       (∀ a ∈ l₁, a ≠ "" ∧ valid a = true) →
       (∀ a ∈ l₁, ∃ d, oracle a = .ok d) →
       (bad = "" ∨ valid bad = false) →
       fetch_prices valid oracle (l₁ ++ bad :: l₂) =
         (.error (if bad = "" then PyError.noPositionsError else PyError.invalidSolanaAddress), l₁)) ∧
    (∀ (valid : String → Bool) (oracle : String → Except PyError (Option (List RawPool)))
       (l₁ l₂ : List String) (bad : String),
       (∀ a ∈ l₁, a ≠ "" ∧ valid a = true) →
       (∀ a ∈ l₁, ∃ resp, oracle a = .ok resp ∧
          ∃ r, find_largest_pool_with_sol (resp.getD []) a = .ok r) →
       (bad = "" ∨ valid bad = false) →
       fetch_prices_dex valid oracle (l₁ ++ bad :: l₂) =
         (.error (if bad = "" then PyError.noPositionsError else PyError.invalidSolanaAddress), l₁)) :=
  ⟨fun valid oracle l₁ l₂ bad hv ho hbad =>
      fetchPricesGo_fail_fast valid oracle bad l₂ hbad l₁ [] hv ho,
   fun valid oracle l₁ l₂ bad hv ho hbad =>
      fetchPricesDexGo_fail_fast valid oracle bad l₂ hbad l₁ [] hv ho⟩

/-- Witness for C3: the amended theorem at a concrete two-element list with
the invalid address second. -/
theorem invalid_address_fail_fast_witness :
    fetch_prices (fun s => s != "bad") (fun _ => .ok none) (["GOOD"] ++ "bad" :: []) =
      (.error (if "bad" = "" then PyError.noPositionsError else PyError.invalidSolanaAddress),
       ["GOOD"]) ∧
    fetch_prices_dex (fun s => s != "bad") (fun _ => .ok none) (["GOOD"] ++ "bad" :: []) =
      (.error (if "bad" = "" then PyError.noPositionsError else PyError.invalidSolanaAddress),
       ["GOOD"]) :=
  ⟨invalid_address_fail_fast.1 (fun s => s != "bad") (fun _ => .ok none) ["GOOD"] [] "bad"
      (by decide) (fun a _ => ⟨none, rfl⟩) (by decide),
   invalid_address_fail_fast.2 (fun s => s != "bad") (fun _ => .ok none) ["GOOD"] [] "bad"
      (by decide) (fun a _ => ⟨none, rfl, none, rfl⟩) (by decide)⟩

/-- Counterexample to C3 as stated: with the invalid address in second
position, the validation error is raised only AFTER a network call was
already made for the first address (call log `["GOOD"]`, not `[]`), in both
bulk operations. -/
theorem invalid_address_midlist_call :
    (fetch_prices (fun s => s != "bad") (fun _ => .ok none) ["GOOD", "bad"]).1 =
      .error PyError.invalidSolanaAddress ∧
    (fetch_prices (fun s => s != "bad") (fun _ => .ok none) ["GOOD", "bad"]).2 = ["GOOD"] ∧
    (fetch_prices_dex (fun s => s != "bad") (fun _ => .ok none) ["GOOD", "bad"]).2 = ["GOOD"] := by
  decide

theorem lookupKey_setKey_self {α β : Type} [DecidableEq α] (k : α) (v : β)
    (l : List (α × β)) : lookupKey k (setKey k v l) = some v := by
  induction l with
  | nil => simp [setKey, lookupKey]
  | cons kv rest ih =>
    obtain ⟨k', v'⟩ := kv
    by_cases h : k' = k
    · subst h
      simp [setKey, lookupKey]
    · simp [setKey, lookupKey, h, ih]

theorem lookupKey_setKey_ne {α β : Type} [DecidableEq α] {k k' : α} (v : β)
    (l : List (α × β)) (h : k' ≠ k) : lookupKey k (setKey k' v l) = lookupKey k l := by
  induction l with
  | nil => simp [setKey, lookupKey, h]
  | cons kv rest ih =>
    obtain ⟨k'', v''⟩ := kv
    by_cases h2 : k'' = k'
    · subst h2
      simp [setKey, lookupKey, h]
    · by_cases h3 : k'' = k
      · subst h3
        simp [setKey, lookupKey, h2]
      · simp [setKey, lookupKey, h2, h3, ih]

/-- If the oracle answers token `T` with a truthy `data` object `d`, then any
successful `fetch_prices` run over a list containing `T` maps `T` to the
single-entry inner mapping keyed by `d.updateHumanTime or ''`. -/
theorem fetchPricesGo_lookup (valid : String → Bool)
    (oracle : String → Except PyError (Option BirdData)) (T : String) (d : BirdData)
    (hT : oracle T = .ok (some d)) :
    ∀ (addrs : List String) (acc m : BirdResult) (calls : List String),
    fetchPricesGo valid oracle acc addrs = (.ok m, calls) →
    (T ∈ addrs ∨ lookupKey T acc = some [(d.updateHumanTime.getD "", ⟨d.value, d.value⟩)]) →
    lookupKey T m = some [(d.updateHumanTime.getD "", ⟨d.value, d.value⟩)] := by
  intro addrs
  induction addrs with
  | nil =>
    intro acc m calls h hmem
    simp only [fetchPricesGo, Prod.mk.injEq] at h
    obtain ⟨h1, _⟩ := h
    rcases hmem with h2 | h2
    · exact absurd h2 (List.not_mem_nil _)
    · rw [← Except.ok.inj h1]
      exact h2
  | cons a rest ih =>
    intro acc m calls h hmem
    rw [fetchPricesGo_cons] at h
    by_cases ha : a = ""
    · rw [if_pos ha] at h
      exact absurd (congrArg Prod.fst h) (by simp)
    · rw [if_neg ha] at h
      by_cases hva : valid a = false
      · rw [if_pos hva] at h
        exact absurd (congrArg Prod.fst h) (by simp)
      · rw [if_neg hva] at h
        match hoa : oracle a with
        | .error e =>
          rw [hoa] at h
          exact absurd (congrArg Prod.fst h) (by simp)
        | .ok odata =>
          rw [hoa] at h
          cases odata with
          | none =>
            simp only [] at h
            rcases hgo : fetchPricesGo valid oracle acc rest with ⟨r1, r2⟩
            rw [hgo] at h
            simp only [Prod.mk.injEq] at h
            obtain ⟨h1, h2⟩ := h
            by_cases hTa : T = a
            · subst hTa
              rw [hT] at hoa
              exact absurd (Except.ok.inj hoa) (by simp)
            · rcases hmem with h3 | h3
              · rcases List.mem_cons.mp h3 with h4 | h4
                · exact absurd h4 hTa
                · exact ih acc m r2 (by rw [hgo, h1]) (Or.inl h4)
              · exact ih acc m r2 (by rw [hgo, h1]) (Or.inr h3)
          | some d' =>
            simp only [] at h
            rcases hgo : fetchPricesGo valid oracle
                (setKey a [(d'.updateHumanTime.getD "", ⟨d'.value, d'.value⟩)] acc) rest
              with ⟨r1, r2⟩
            rw [hgo] at h
            simp only [Prod.mk.injEq] at h
            obtain ⟨h1, h2⟩ := h
            by_cases hTa : T = a
            · subst hTa
              rw [hT] at hoa
              have hdd : d' = d := by
                have := Except.ok.inj hoa
                exact (Option.some.inj this).symm
              subst hdd
              exact ih _ m r2 (by rw [hgo, h1]) (Or.inr (lookupKey_setKey_self T _ acc))
            · rcases hmem with h3 | h3
              · rcases List.mem_cons.mp h3 with h4 | h4
                · exact absurd h4 hTa
                · exact ih _ m r2 (by rw [hgo, h1]) (Or.inl h4)
              · refine ih _ m r2 (by rw [hgo, h1]) (Or.inr ?_)
                rw [lookupKey_setKey_ne _ _ (fun hh => hTa hh.symm)]
                exact h3

/-- C4: when the price-provider response for token `T` carries a non-empty
`data` object `d`, a successful `fetch_prices` run over a list containing `T`
maps `T` to the inner mapping with the single key `d.updateHumanTime`
(empty string if absent) and value `PriceInfo(value = d.value,
liquidity = d.value)` — the documented duplication. -/
theorem fetch_prices_maps_token :
    ∀ (valid : String → Bool) (oracle : String → Except PyError (Option BirdData))
      (addrs : List String) (m : BirdResult) (calls : List String) (T : String) (d : BirdData),
    fetch_prices valid oracle addrs = (.ok m, calls) →
    T ∈ addrs →
    oracle T = .ok (some d) →
    lookupKey T m = some [(d.updateHumanTime.getD "", ⟨d.value, d.value⟩)] :=
  fun valid oracle addrs m calls T d h hmem hT =>
    fetchPricesGo_lookup valid oracle T d hT addrs [] m calls h (Or.inl hmem)

/-- Witness for C4: the spec's fixture response
`{"data": {"value": "1.23", "updateHumanTime": "2024-01-01T00:00:00"}}`. -/
theorem fetch_prices_maps_token_witness :
    lookupKey "T1"
        [("T1", [("2024-01-01T00:00:00",
          (⟨some "1.23", some "1.23"⟩ : PriceInfo (Option String) (Option String)))])] =
      some [("2024-01-01T00:00:00", ⟨some "1.23", some "1.23"⟩)] :=
  fetch_prices_maps_token (fun _ => true)
    (fun _ => .ok (some ⟨some "1.23", some "2024-01-01T00:00:00"⟩)) ["T1"]
    [("T1", [("2024-01-01T00:00:00", ⟨some "1.23", some "1.23"⟩)])] ["T1"] "T1"
    ⟨some "1.23", some "2024-01-01T00:00:00"⟩ (by decide) (by decide) rfl

/-- If the oracle answers token `T` with falsy/absent `data`, `T` is never
added by the `fetch_prices` loop. -/
theorem fetchPricesGo_skip (valid : String → Bool)
    (oracle : String → Except PyError (Option BirdData)) (T : String)
    (hT : oracle T = .ok none) :
    ∀ (addrs : List String) (acc m : BirdResult) (calls : List String),
    fetchPricesGo valid oracle acc addrs = (.ok m, calls) →
    lookupKey T acc = none →
    lookupKey T m = none := by
  intro addrs
  induction addrs with
  | nil =>
    intro acc m calls h hacc
    simp only [fetchPricesGo, Prod.mk.injEq] at h
    obtain ⟨h1, _⟩ := h
    rw [← Except.ok.inj h1]
    exact hacc
  | cons a rest ih =>
    intro acc m calls h hacc
    rw [fetchPricesGo_cons] at h
    by_cases ha : a = ""
    · rw [if_pos ha] at h
      exact absurd (congrArg Prod.fst h) (by simp)
    · rw [if_neg ha] at h
      by_cases hva : valid a = false
      · rw [if_pos hva] at h
        exact absurd (congrArg Prod.fst h) (by simp)
      · rw [if_neg hva] at h
        match hoa : oracle a with
        | .error e =>
          rw [hoa] at h
          exact absurd (congrArg Prod.fst h) (by simp)
        | .ok odata =>
          rw [hoa] at h
          cases odata with
          | none =>
            simp only [] at h
            rcases hgo : fetchPricesGo valid oracle acc rest with ⟨r1, r2⟩
            rw [hgo] at h
            simp only [Prod.mk.injEq] at h
            obtain ⟨h1, _⟩ := h
            exact ih acc m r2 (by rw [hgo, h1]) hacc
          | some d' =>
            simp only [] at h
            rcases hgo : fetchPricesGo valid oracle
                (setKey a [(d'.updateHumanTime.getD "", ⟨d'.value, d'.value⟩)] acc) rest
              with ⟨r1, r2⟩
            rw [hgo] at h
            simp only [Prod.mk.injEq] at h
            obtain ⟨h1, _⟩ := h
            by_cases hTa : T = a
            · subst hTa
              rw [hT] at hoa
              exact absurd (Except.ok.inj hoa) (by simp)
            · refine ih _ m r2 (by rw [hgo, h1]) ?_
              rw [lookupKey_setKey_ne _ _ (fun hh => hTa hh.symm)]
              exact hacc

/-- C5: a token whose price-provider response has `data` null, missing or
otherwise falsy is silently omitted: it is not a key of any successful
`fetch_prices` result and no exception is raised for it. -/
theorem fetch_prices_omits_no_data :
    ∀ (valid : String → Bool) (oracle : String → Except PyError (Option BirdData))
      (addrs : List String) (m : BirdResult) (calls : List String) (T : String),
    fetch_prices valid oracle addrs = (.ok m, calls) →
    oracle T = .ok none →
    lookupKey T m = none :=
  fun valid oracle addrs m calls T h hT =>
    fetchPricesGo_skip valid oracle T hT addrs [] m calls h rfl

/-- Witness for C5: a run over `["T1"]` whose response has no `data`
completes (no exception) and omits `"T1"`. -/
theorem fetch_prices_omits_no_data_witness :
    lookupKey "T1" ([] : BirdResult) = none :=
  fetch_prices_omits_no_data (fun _ => true) (fun _ => .ok none) ["T1"] [] ["T1"] "T1"
    (by decide) rfl

/-- If the oracle's overview for token `T` yields a qualifying pool `p`, any
successful `fetch_prices_dex` run over a list containing `T` maps `T` to the
single-entry inner mapping keyed by `Decimal(p.liquidity.quote)`. -/
theorem fetchPricesDexGo_lookup (valid : String → Bool)
    (oracle : String → Except PyError (Option (List RawPool))) (T : String)
    (resp : Option (List RawPool)) (p : RawPool)
    (hT : oracle T = .ok resp)
    (hp : find_largest_pool_with_sol (resp.getD []) T = .ok (some p)) :
    ∀ (addrs : List String) (acc m : DexResult) (calls : List String),
    fetchPricesDexGo valid oracle acc addrs = (.ok m, calls) →
    (T ∈ addrs ∨ lookupKey T acc =
      some [(p.liquidityQuote.getD 0, ⟨p.dexId.getD "", p.liquidityUsd.getD 0⟩)]) →
    lookupKey T m =
      some [(p.liquidityQuote.getD 0, ⟨p.dexId.getD "", p.liquidityUsd.getD 0⟩)] := by
  intro addrs
  induction addrs with
  | nil =>
    intro acc m calls h hmem
    simp only [fetchPricesDexGo, Prod.mk.injEq] at h
    obtain ⟨h1, _⟩ := h
    rcases hmem with h2 | h2
    · exact absurd h2 (List.not_mem_nil _)
    · rw [← Except.ok.inj h1]
      exact h2
  | cons a rest ih =>
    intro acc m calls h hmem
    rw [fetchPricesDexGo_cons] at h
    by_cases ha : a = ""
    · rw [if_pos ha] at h
      exact absurd (congrArg Prod.fst h) (by simp)
    · rw [if_neg ha] at h
      by_cases hva : valid a = false
      · rw [if_pos hva] at h
        exact absurd (congrArg Prod.fst h) (by simp)
      · rw [if_neg hva] at h
        match hoa : oracle a with
        | .error e =>
          rw [hoa] at h
          exact absurd (congrArg Prod.fst h) (by simp)
        | .ok resp' =>
          rw [hoa] at h
          simp only [] at h
          match hsel : find_largest_pool_with_sol (resp'.getD []) a with
          | .error e =>
            rw [hsel] at h
            exact absurd (congrArg Prod.fst h) (by simp)
          | .ok maxEntry =>
            rw [hsel] at h
            cases maxEntry with
            | none =>
              simp only [] at h
              rcases hgo : fetchPricesDexGo valid oracle acc rest with ⟨r1, r2⟩
              rw [hgo] at h
              simp only [Prod.mk.injEq] at h
              obtain ⟨h1, _⟩ := h
              by_cases hTa : T = a
              · subst hTa
                rw [hT] at hoa
                rw [← Except.ok.inj hoa] at hsel
                rw [hp] at hsel
                exact absurd (Except.ok.inj hsel) (by simp)
              · rcases hmem with h3 | h3
                · rcases List.mem_cons.mp h3 with h4 | h4
                  · exact absurd h4 hTa
                  · exact ih acc m r2 (by rw [hgo, h1]) (Or.inl h4)
                · exact ih acc m r2 (by rw [hgo, h1]) (Or.inr h3)
            | some p' =>
              simp only [] at h
              rcases hgo : fetchPricesDexGo valid oracle
                  (setKey a [(p'.liquidityQuote.getD 0,
                    ⟨p'.dexId.getD "", p'.liquidityUsd.getD 0⟩)] acc) rest
                with ⟨r1, r2⟩
              rw [hgo] at h
              simp only [Prod.mk.injEq] at h
              obtain ⟨h1, _⟩ := h
              by_cases hTa : T = a
              · subst hTa
                rw [hT] at hoa
                rw [← Except.ok.inj hoa] at hsel
                rw [hp] at hsel
                have hpp : p' = p := (Option.some.inj (Except.ok.inj hsel)).symm
                subst hpp
                exact ih _ m r2 (by rw [hgo, h1])
                  (Or.inr (lookupKey_setKey_self T _ acc))
              · rcases hmem with h3 | h3
                · rcases List.mem_cons.mp h3 with h4 | h4
                  · exact absurd h4 hTa
                  · exact ih _ m r2 (by rw [hgo, h1]) (Or.inl h4)
                · refine ih _ m r2 (by rw [hgo, h1]) (Or.inr ?_)
                  rw [lookupKey_setKey_ne _ _ (fun hh => hTa hh.symm)]
                  exact h3

/-- If the oracle's overview for token `T` yields no qualifying pool, `T` is
never added by the `fetch_prices_dex` loop. -/
theorem fetchPricesDexGo_skip (valid : String → Bool)
    (oracle : String → Except PyError (Option (List RawPool))) (T : String)
    (resp : Option (List RawPool))
    (hT : oracle T = .ok resp)
    (hp : find_largest_pool_with_sol (resp.getD []) T = .ok none) :
    ∀ (addrs : List String) (acc m : DexResult) (calls : List String),
    fetchPricesDexGo valid oracle acc addrs = (.ok m, calls) →
    lookupKey T acc = none →
    lookupKey T m = none := by
  intro addrs
  induction addrs with
  | nil =>
    intro acc m calls h hacc
    simp only [fetchPricesDexGo, Prod.mk.injEq] at h
    obtain ⟨h1, _⟩ := h
    rw [← Except.ok.inj h1]
    exact hacc
  | cons a rest ih =>
    intro acc m calls h hacc
    rw [fetchPricesDexGo_cons] at h
    by_cases ha : a = ""
    · rw [if_pos ha] at h
      exact absurd (congrArg Prod.fst h) (by simp)
    · rw [if_neg ha] at h
      by_cases hva : valid a = false
      · rw [if_pos hva] at h
        exact absurd (congrArg Prod.fst h) (by simp)
      · rw [if_neg hva] at h
        match hoa : oracle a with
        | .error e =>
          rw [hoa] at h
          exact absurd (congrArg Prod.fst h) (by simp)
        | .ok resp' =>
          rw [hoa] at h
          simp only [] at h
          match hsel : find_largest_pool_with_sol (resp'.getD []) a with
          | .error e =>
            rw [hsel] at h
            exact absurd (congrArg Prod.fst h) (by simp)
          | .ok maxEntry =>
            rw [hsel] at h
            cases maxEntry with
            | none =>
              simp only [] at h
              rcases hgo : fetchPricesDexGo valid oracle acc rest with ⟨r1, r2⟩
              rw [hgo] at h
              simp only [Prod.mk.injEq] at h
              obtain ⟨h1, _⟩ := h
              exact ih acc m r2 (by rw [hgo, h1]) hacc
            | some p' =>
              simp only [] at h
              rcases hgo : fetchPricesDexGo valid oracle
                  (setKey a [(p'.liquidityQuote.getD 0,
                    ⟨p'.dexId.getD "", p'.liquidityUsd.getD 0⟩)] acc) rest
                with ⟨r1, r2⟩
              rw [hgo] at h
              simp only [Prod.mk.injEq] at h
              obtain ⟨h1, _⟩ := h
              by_cases hTa : T = a
              · subst hTa
                rw [hT] at hoa
                rw [← Except.ok.inj hoa] at hsel
                rw [hp] at hsel
                exact absurd (Except.ok.inj hsel) (by simp)
              · refine ih _ m r2 (by rw [hgo, h1]) ?_
                rw [lookupKey_setKey_ne _ _ (fun hh => hTa hh.symm)]
                exact hacc

/-- C6: in a successful `fetch_prices_dex` run, a token `T` whose overview
yields a qualifying pool `p` maps to
`{Decimal(p.liquidity.quote): PriceInfo(value = str(p.dexId or ""),
liquidity = Decimal(p.liquidity.usd))}` (absent numeric fields defaulting to
`0`); a token with no qualifying pool is silently omitted. -/
theorem fetch_prices_dex_maps_token :
    (∀ (valid : String → Bool) (oracle : String → Except PyError (Option (List RawPool)))
       (addrs : List String) (m : DexResult) (calls : List String) (T : String)
       (resp : Option (List RawPool)) (p : RawPool),
       fetch_prices_dex valid oracle addrs = (.ok m, calls) →
       T ∈ addrs →
       oracle T = .ok resp →
       find_largest_pool_with_sol (resp.getD []) T = .ok (some p) →
       lookupKey T m =
         some [(p.liquidityQuote.getD 0, ⟨p.dexId.getD "", p.liquidityUsd.getD 0⟩)]) ∧
    (∀ (valid : String → Bool) (oracle : String → Except PyError (Option (List RawPool)))
       (addrs : List String) (m : DexResult) (calls : List String) (T : String)
       (resp : Option (List RawPool)),
       fetch_prices_dex valid oracle addrs = (.ok m, calls) →
       oracle T = .ok resp →
       find_largest_pool_with_sol (resp.getD []) T = .ok none →
       lookupKey T m = none) :=
  ⟨fun valid oracle addrs m calls T resp p h hmem hT hp =>
      fetchPricesDexGo_lookup valid oracle T resp p hT hp addrs [] m calls h (Or.inl hmem),
   fun valid oracle addrs m calls T resp h hT hp =>
      fetchPricesDexGo_skip valid oracle T resp hT hp addrs [] m calls h rfl⟩

/-- Witness for C6: the spec's fixture pool (quote `"10"`, dexId `"raydium"`,
usd `"150.5"`) yields `{T: {Decimal("10"): PriceInfo("raydium",
Decimal("150.5"))}}`. -/
theorem fetch_prices_dex_maps_token_witness :
    lookupKey fixtureAddr
        [(fixtureAddr, [((10 : ℚ),
          (⟨"raydium", usd150_5⟩ : PriceInfo String ℚ))])] =
      some [((10 : ℚ), ⟨"raydium", usd150_5⟩)] :=
  fetch_prices_dex_maps_token.1 (fun _ => true) (fun _ => .ok (some [poolB]))
    [fixtureAddr] [(fixtureAddr, [((10 : ℚ), ⟨"raydium", usd150_5⟩)])] [fixtureAddr]
    fixtureAddr (some [poolB]) poolB (by decide) (by decide) rfl (by decide)

theorem bind_eq_ok {α β : Type} (m : Except PyError α) (k : α → Except PyError β) (r : β) :
    (m >>= k) = .ok r ↔ ∃ a, m = .ok a ∧ k a = .ok r := by
  cases m <;> simp [Bind.bind, Except.bind]

/-- One raw pair either normalizes (exactly when every mandatory field is
present) or fails with `KeyError`. -/
theorem normalizePair_dichotomy (p : RawPair) :
    ((∃ pr, normalizePair p = .ok pr) ↔ pairComplete p = true) ∧
    (pairComplete p = false → normalizePair p = .error .keyError) := by
  obtain ⟨f1, f2, f3, f4, f5, f6, f7, f8, ft, f10, f11, f12, f13, f14, fi⟩ := p
  cases f1 with
  | none => simp [normalizePair, req, pairComplete, Bind.bind, Except.bind]
  | some c1 =>
  cases f2 with
  | none => simp [normalizePair, req, pairComplete, Bind.bind, Except.bind]
  | some c2 =>
  cases f3 with
  | none => simp [normalizePair, req, pairComplete, Bind.bind, Except.bind]
  | some c3 =>
  cases f4 with
  | none => simp [normalizePair, req, pairComplete, Bind.bind, Except.bind]
  | some c4 =>
  cases f5 with
  | none => simp [normalizePair, req, pairComplete, Bind.bind, Except.bind]
  | some c5 =>
  cases f6 with
  | none => simp [normalizePair, req, pairComplete, Bind.bind, Except.bind]
  | some c6 =>
  cases f7 with
  | none => simp [normalizePair, req, pairComplete, Bind.bind, Except.bind]
  | some c7 =>
  cases f8 with
  | none => simp [normalizePair, req, pairComplete, Bind.bind, Except.bind]
  | some c8 =>
  cases ft with
  | none => simp [normalizePair, req, pairComplete, Bind.bind, Except.bind]
  | some t =>
  obtain ⟨t5, th1, th6, t24⟩ := t
  cases t5 with
  | none => simp [normalizePair, req, pairComplete, Bind.bind, Except.bind]
  | some w5 =>
  cases th1 with
  | none => simp [normalizePair, req, pairComplete, Bind.bind, Except.bind]
  | some w1 =>
  cases th6 with
  | none => simp [normalizePair, req, pairComplete, Bind.bind, Except.bind]
  | some w6 =>
  cases t24 with
  | none => simp [normalizePair, req, pairComplete, Bind.bind, Except.bind]
  | some w24 =>
  cases f10 with
  | none => simp [normalizePair, req, pairComplete, Bind.bind, Except.bind]
  | some c10 =>
  cases f11 with
  | none => simp [normalizePair, req, pairComplete, Bind.bind, Except.bind]
  | some c11 =>
  cases f12 with
  | none => simp [normalizePair, req, pairComplete, Bind.bind, Except.bind]
  | some c12 =>
  cases f13 with
  | none => simp [normalizePair, req, pairComplete, Bind.bind, Except.bind]
  | some c13 =>
  cases f14 with
  | none => simp [normalizePair, req, pairComplete, Bind.bind, Except.bind]
  | some c14 =>
  cases fi with
  | none => simp [normalizePair, req, pairComplete, Bind.bind, Except.bind]
  | some i =>
  obtain ⟨i1, i2, i3⟩ := i
  cases i1 with
  | none => simp [normalizePair, req, pairComplete, Bind.bind, Except.bind]
  | some d1 =>
  cases i2 with
  | none => simp [normalizePair, req, pairComplete, Bind.bind, Except.bind]
  | some d2 =>
  cases i3 with
  | none => simp [normalizePair, req, pairComplete, Bind.bind, Except.bind]
  | some d3 =>
  simp [normalizePair, req, pairComplete, Bind.bind, Except.bind]

/-- The pairs loop succeeds exactly when every element is complete, and any
incomplete element fails the whole loop with `KeyError`. -/
theorem normalizePairs_dichotomy (l : List RawPair) :
    ((∃ prs, normalizePairs l = .ok prs) ↔ ∀ p ∈ l, pairComplete p = true) ∧
    ((∃ p ∈ l, pairComplete p = false) → normalizePairs l = .error .keyError) := by
  induction l with
  | nil => simp [normalizePairs]
  | cons p rest ih =>
    constructor
    · constructor
      · rintro ⟨prs, hprs⟩
        rw [normalizePairs, bind_eq_ok] at hprs
        obtain ⟨pr, hp, h2⟩ := hprs
        rw [bind_eq_ok] at h2
        obtain ⟨prs', hrest, _⟩ := h2
        intro q hq
        rcases List.mem_cons.mp hq with rfl | hq
        · exact (normalizePair_dichotomy q).1.mp ⟨pr, hp⟩
        · exact ih.1.mp ⟨prs', hrest⟩ q hq
      · intro hall
        obtain ⟨pr, hp⟩ := (normalizePair_dichotomy p).1.mpr (hall p (List.mem_cons_self _ _))
        obtain ⟨prs, hrest⟩ := ih.1.mpr (fun q hq => hall q (List.mem_cons_of_mem _ hq))
        exact ⟨pr :: prs, by rw [normalizePairs]; simp [hp, hrest, Bind.bind, Except.bind]⟩
    · rintro ⟨q, hq, hqf⟩
      rcases List.mem_cons.mp hq with rfl | hq
      · have herr := (normalizePair_dichotomy q).2 hqf
        rw [normalizePairs]
        simp [herr, Bind.bind, Except.bind]
      · have herr := ih.2 ⟨q, hq, hqf⟩
        cases hpc : pairComplete p with
        | false =>
          have := (normalizePair_dichotomy p).2 hpc
          rw [normalizePairs]
          simp [this, Bind.bind, Except.bind]
        | true =>
          obtain ⟨pr, hp⟩ := (normalizePair_dichotomy p).1.mpr hpc
          rw [normalizePairs]
          simp [hp, herr, Bind.bind, Except.bind]

/-- C7: `fetch_token_overview` normalization succeeds exactly when
`schemaVersion` is present and every element of the `pairs` array carries all
mandatory nested fields; a missing mandatory field or missing `schemaVersion`
fails the whole normalization with a structural error (`KeyError`), emitting
no partial `TokenOverview`; an absent `pairs` array instead yields an empty
pairs sequence. -/
theorem token_overview_normalization :
    (∀ raw : RawOverview,
       (∃ ov, fetchTokenOverviewCore raw = .ok ov) ↔
         (raw.schemaVersion.isSome = true ∧ ∀ p ∈ raw.pairs.getD [], pairComplete p = true)) ∧
    (∀ raw : RawOverview,
       (raw.schemaVersion = none ∨ ∃ p ∈ raw.pairs.getD [], pairComplete p = false) →
       fetchTokenOverviewCore raw = .error PyError.keyError) ∧
    (∀ sv : String, fetchTokenOverviewCore ⟨some sv, none⟩ = .ok ⟨sv, []⟩) := by
  refine ⟨?_, ?_, fun sv => rfl⟩
  · intro raw
    constructor
    · rintro ⟨ov, hov⟩
      rw [fetchTokenOverviewCore, bind_eq_ok] at hov
      obtain ⟨prs, hprs, h2⟩ := hov
      cases hsv : raw.schemaVersion with
      | none => rw [hsv] at h2; exact absurd h2 (by simp)
      | some sv =>
        exact ⟨rfl, (normalizePairs_dichotomy _).1.mp ⟨prs, hprs⟩⟩
    · rintro ⟨hsv, hall⟩
      obtain ⟨sv, hsv'⟩ := Option.isSome_iff_exists.mp hsv
      obtain ⟨prs, hprs⟩ := (normalizePairs_dichotomy _).1.mpr hall
      refine ⟨⟨sv, prs⟩, ?_⟩
      rw [fetchTokenOverviewCore]
      simp [hprs, hsv', Bind.bind, Except.bind]
  · intro raw hbad
    rcases hbad with hsv | hbadp
    · by_cases hall : ∀ p ∈ raw.pairs.getD [], pairComplete p = true
      · obtain ⟨prs, hprs⟩ := (normalizePairs_dichotomy _).1.mpr hall
        rw [fetchTokenOverviewCore]
        simp [hprs, hsv, Bind.bind, Except.bind]
      · push_neg at hall
        obtain ⟨q, hq, hqf⟩ := hall
        have herr := (normalizePairs_dichotomy _).2 ⟨q, hq, Bool.not_eq_true _ ▸ hqf⟩
        rw [fetchTokenOverviewCore]
        simp [herr, Bind.bind, Except.bind]
    · have herr := (normalizePairs_dichotomy _).2 hbadp
      rw [fetchTokenOverviewCore]
      simp [herr, Bind.bind, Except.bind]

/-- Witness for C7: a pairless overview normalizes to empty pairs; an
overview containing `rawBadPair` (or missing `schemaVersion`) fails whole. -/
theorem token_overview_normalization_witness :
    (∃ ov, fetchTokenOverviewCore ⟨some "1.0.0", none⟩ = .ok ov) ∧
    fetchTokenOverviewCore ⟨some "1.0.0", some [rawBadPair]⟩ = .error PyError.keyError ∧
    fetchTokenOverviewCore ⟨none, none⟩ = .error PyError.keyError ∧
    fetchTokenOverviewCore ⟨some "1.0.0", none⟩ = .ok ⟨"1.0.0", []⟩ :=
  ⟨(token_overview_normalization.1 ⟨some "1.0.0", none⟩).mpr ⟨rfl, by simp⟩,
   token_overview_normalization.2.1 ⟨some "1.0.0", some [rawBadPair]⟩
     (Or.inr ⟨rawBadPair, by simp, by decide⟩),
   token_overview_normalization.2.1 ⟨none, none⟩ (Or.inl rfl),
   token_overview_normalization.2.2 "1.0.0"⟩

/-- C8 (amended): for every method string whose `upper()` form is neither
`"GET"` nor `"POST"`, `_make_api_call` raises `ValueError` without performing
any HTTP request; strings uppercasing to `"GET"` dispatch to an HTTP GET and
to `"POST"` an HTTP POST. -/
theorem make_api_call_dispatch :
    (∀ (t : HttpMethod → HttpResp) (m : String),
       pyUpper m ≠ "GET" → pyUpper m ≠ "POST" →
       _make_api_call t m = (.error PyError.valueError, [])) ∧
    (∀ (t : HttpMethod → HttpResp) (m : String),
       pyUpper m = "GET" → (_make_api_call t m).2 = [HttpMethod.get]) ∧
    (∀ (t : HttpMethod → HttpResp) (m : String),
       pyUpper m = "POST" → (_make_api_call t m).2 = [HttpMethod.post]) := by
  refine ⟨?_, ?_, ?_⟩
  · intro t m h1 h2
    rw [_make_api_call, if_neg h1, if_neg h2]
  · intro t m h1
    rw [_make_api_call, if_pos h1]
  · intro t m h2
    by_cases h1 : pyUpper m = "GET"
    · rw [h1] at h2
      exact absurd h2 (by decide)
    · rw [_make_api_call, if_neg h1, if_pos h2]

/-- Witness for C8: concrete dispatches for `"DELETE"`, `"Get"`, `"post"`. -/
theorem make_api_call_dispatch_witness :
    _make_api_call okTransport "DELETE" = (.error PyError.valueError, []) ∧
    (_make_api_call okTransport "Get").2 = [HttpMethod.get] ∧
    (_make_api_call okTransport "post").2 = [HttpMethod.post] :=
  ⟨make_api_call_dispatch.1 okTransport "DELETE" (by decide) (by decide),
   make_api_call_dispatch.2.1 okTransport "Get" (by decide),
   make_api_call_dispatch.2.2 okTransport "post" (by decide)⟩

/-- Counterexample to C8 as stated: `"get"` is a method string other than
`"GET"`/`"POST"`, yet the dispatcher performs an HTTP GET and raises no
unsupported-method error, because `method.upper()` is matched. -/
theorem make_api_call_lowercase_get :
    "get" ≠ "GET" ∧ "get" ≠ "POST" ∧
    _make_api_call okTransport "get" = (.ok "{}", [HttpMethod.get]) := by decide

/-- C9: the scan is not total: a record whose `baseToken.address` matches
the target but whose `quoteToken` key (or its `address` sub-key) is absent
raises `KeyError` instead of being skipped, although absent `baseToken` and
absent `liquidity`/`liquidity.usd` are tolerated via defaults. -/
theorem find_largest_pool_keyerror :
    find_largest_pool_with_sol [poolNoQuote] fixtureAddr = .error PyError.keyError ∧
    find_largest_pool_with_sol [poolQuoteNoAddr] fixtureAddr = .error PyError.keyError ∧
    find_largest_pool_with_sol [poolNoBase] fixtureAddr = .ok none ∧
    find_largest_pool_with_sol [poolNoUsd] fixtureAddr = .ok (some poolNoUsd) := by decide

theorem mem_setKey {α β : Type} [DecidableEq α] {kv : α × β} (k : α) (v : β)
    (l : List (α × β)) (h : kv ∈ setKey k v l) : kv = (k, v) ∨ kv ∈ l := by
  induction l with
  | nil => simpa [setKey] using h
  | cons kv' rest ih =>
    obtain ⟨k', v'⟩ := kv'
    by_cases hk : k' = k
    · subst hk
      rw [setKey, if_pos rfl] at h
      rcases List.mem_cons.mp h with h | h
      · exact Or.inl h
      · exact Or.inr (List.mem_cons_of_mem _ h)
    · rw [setKey, if_neg hk] at h
      rcases List.mem_cons.mp h with h | h
      · exact Or.inr (h ▸ List.mem_cons_self _ _)
      · rcases ih h with h | h
        · exact Or.inl h
        · exact Or.inr (List.mem_cons_of_mem _ h)

theorem mem_keys_setKey {α β : Type} [DecidableEq α] {x k : α} (v : β)
    (l : List (α × β)) (h : x ∈ (setKey k v l).map Prod.fst) :
    x = k ∨ x ∈ l.map Prod.fst := by
  obtain ⟨kv, hkv, hx⟩ := List.mem_map.mp h
  rcases mem_setKey k v l hkv with h1 | h1
  · left
    rw [← hx, h1]
  · right
    exact List.mem_map.mpr ⟨kv, h1, hx⟩

theorem setKey_keys_nodup {α β : Type} [DecidableEq α] (k : α) (v : β)
    (l : List (α × β)) (h : (l.map Prod.fst).Nodup) :
    ((setKey k v l).map Prod.fst).Nodup := by
  induction l with
  | nil => simp [setKey]
  | cons kv' rest ih =>
    obtain ⟨k', v'⟩ := kv'
    simp only [List.map_cons, List.nodup_cons] at h
    obtain ⟨hk', hrest⟩ := h
    by_cases hk : k' = k
    · subst hk
      rw [setKey, if_pos rfl]
      simp only [List.map_cons, List.nodup_cons]
      exact ⟨hk', hrest⟩
    · rw [setKey, if_neg hk]
      simp only [List.map_cons, List.nodup_cons]
      refine ⟨?_, ih hrest⟩
      intro hmem
      rcases mem_keys_setKey v rest hmem with h1 | h1
      · exact hk h1
      · exact hk' h1

theorem fetchPricesGo_inv (valid : String → Bool)
    (oracle : String → Except PyError (Option BirdData)) :
    ∀ (addrs : List String) (acc m : BirdResult) (calls : List String),
    fetchPricesGo valid oracle acc addrs = (.ok m, calls) →
    (∀ kv ∈ m, kv ∈ acc ∨ (kv.1 ∈ addrs ∧ kv.2.length = 1)) ∧
    ((acc.map Prod.fst).Nodup → (m.map Prod.fst).Nodup) := by
  intro addrs
  induction addrs with
  | nil =>
    intro acc m calls h
    simp only [fetchPricesGo, Prod.mk.injEq] at h
    obtain ⟨h1, _⟩ := h
    rw [← Except.ok.inj h1]
    exact ⟨fun kv hkv => Or.inl hkv, id⟩
  | cons a rest ih =>
    intro acc m calls h
    rw [fetchPricesGo_cons] at h
    by_cases ha : a = ""
    · rw [if_pos ha] at h
      exact absurd (congrArg Prod.fst h) (by simp)
    · rw [if_neg ha] at h
      by_cases hva : valid a = false
      · rw [if_pos hva] at h
        exact absurd (congrArg Prod.fst h) (by simp)
      · rw [if_neg hva] at h
        match hoa : oracle a with
        | .error e =>
          rw [hoa] at h
          exact absurd (congrArg Prod.fst h) (by simp)
        | .ok odata =>
          rw [hoa] at h
          cases odata with
          | none =>
            simp only [] at h
            rcases hgo : fetchPricesGo valid oracle acc rest with ⟨r1, r2⟩
            rw [hgo] at h
            simp only [Prod.mk.injEq] at h
            obtain ⟨h1, _⟩ := h
            obtain ⟨hsub, hnd⟩ := ih acc m r2 (by rw [hgo, h1])
            refine ⟨?_, hnd⟩
            intro kv hkv
            rcases hsub kv hkv with h2 | ⟨h2, h3⟩
            · exact Or.inl h2
            · exact Or.inr ⟨List.mem_cons_of_mem _ h2, h3⟩
          | some d' =>
            simp only [] at h
            rcases hgo : fetchPricesGo valid oracle
                (setKey a [(d'.updateHumanTime.getD "", ⟨d'.value, d'.value⟩)] acc) rest
              with ⟨r1, r2⟩
            rw [hgo] at h
            simp only [Prod.mk.injEq] at h
            obtain ⟨h1, _⟩ := h
            obtain ⟨hsub, hnd⟩ := ih _ m r2 (by rw [hgo, h1])
            constructor
            · intro kv hkv
              rcases hsub kv hkv with h2 | ⟨h2, h3⟩
              · rcases mem_setKey _ _ _ h2 with h4 | h4
                · refine Or.inr ⟨?_, ?_⟩
                  · rw [h4]
                    exact List.mem_cons_self _ _
                  · rw [h4]
                    rfl
                · exact Or.inl h4
              · exact Or.inr ⟨List.mem_cons_of_mem _ h2, h3⟩
            · intro hacc
              exact hnd (setKey_keys_nodup _ _ _ hacc)

theorem fetchPricesDexGo_inv (valid : String → Bool)
    (oracle : String → Except PyError (Option (List RawPool))) :
    ∀ (addrs : List String) (acc m : DexResult) (calls : List String),
    fetchPricesDexGo valid oracle acc addrs = (.ok m, calls) →
    (∀ kv ∈ m, kv ∈ acc ∨ (kv.1 ∈ addrs ∧ kv.2.length = 1)) ∧
    ((acc.map Prod.fst).Nodup → (m.map Prod.fst).Nodup) := by
  intro addrs
  induction addrs with
  | nil =>
    intro acc m calls h
    simp only [fetchPricesDexGo, Prod.mk.injEq] at h
    obtain ⟨h1, _⟩ := h
    rw [← Except.ok.inj h1]
    exact ⟨fun kv hkv => Or.inl hkv, id⟩
  | cons a rest ih =>
    intro acc m calls h
    rw [fetchPricesDexGo_cons] at h
    by_cases ha : a = ""
    · rw [if_pos ha] at h
      exact absurd (congrArg Prod.fst h) (by simp)
    · rw [if_neg ha] at h
      by_cases hva : valid a = false
      · rw [if_pos hva] at h
        exact absurd (congrArg Prod.fst h) (by simp)
      · rw [if_neg hva] at h
        match hoa : oracle a with
        | .error e =>
          rw [hoa] at h
          exact absurd (congrArg Prod.fst h) (by simp)
        | .ok resp' =>
          rw [hoa] at h
          simp only [] at h
          match hsel : find_largest_pool_with_sol (resp'.getD []) a with
          | .error e =>
            rw [hsel] at h
            exact absurd (congrArg Prod.fst h) (by simp)
          | .ok maxEntry =>
            rw [hsel] at h
            cases maxEntry with
            | none =>
              simp only [] at h
              rcases hgo : fetchPricesDexGo valid oracle acc rest with ⟨r1, r2⟩
              rw [hgo] at h
              simp only [Prod.mk.injEq] at h
              obtain ⟨h1, _⟩ := h
              obtain ⟨hsub, hnd⟩ := ih acc m r2 (by rw [hgo, h1])
              refine ⟨?_, hnd⟩
              intro kv hkv
              rcases hsub kv hkv with h2 | ⟨h2, h3⟩
              · exact Or.inl h2
              · exact Or.inr ⟨List.mem_cons_of_mem _ h2, h3⟩
            | some p' =>
              simp only [] at h
              rcases hgo : fetchPricesDexGo valid oracle
                  (setKey a [(p'.liquidityQuote.getD 0,
                    ⟨p'.dexId.getD "", p'.liquidityUsd.getD 0⟩)] acc) rest
                with ⟨r1, r2⟩
              rw [hgo] at h
              simp only [Prod.mk.injEq] at h
              obtain ⟨h1, _⟩ := h
              obtain ⟨hsub, hnd⟩ := ih _ m r2 (by rw [hgo, h1])
              constructor
              · intro kv hkv
                rcases hsub kv hkv with h2 | ⟨h2, h3⟩
                · rcases mem_setKey _ _ _ h2 with h4 | h4
                  · refine Or.inr ⟨?_, ?_⟩
                    · rw [h4]
                      exact List.mem_cons_self _ _
                    · rw [h4]
                      rfl
                  · exact Or.inl h4
                · exact Or.inr ⟨List.mem_cons_of_mem _ h2, h3⟩
              · intro hacc
                exact hnd (setKey_keys_nodup _ _ _ hacc)

/-- C10: on any normal return of `fetch_prices` or `fetch_prices_dex`, the
result's keys are a subset of the input addresses with no duplicate keys (so
a duplicated input address yields a single entry, rewritten at each
occurrence by Python dict assignment), and every inner mapping holds exactly
one entry. -/
theorem fetch_prices_result_invariants :
    (∀ (valid : String → Bool) (oracle : String → Except PyError (Option BirdData))
       (addrs : List String) (m : BirdResult) (calls : List String),
       fetch_prices valid oracle addrs = (.ok m, calls) →
       (∀ kv ∈ m, kv.1 ∈ addrs ∧ kv.2.length = 1) ∧ (m.map Prod.fst).Nodup) ∧
    (∀ (valid : String → Bool) (oracle : String → Except PyError (Option (List RawPool)))
       (addrs : List String) (m : DexResult) (calls : List String),
       fetch_prices_dex valid oracle addrs = (.ok m, calls) →
       (∀ kv ∈ m, kv.1 ∈ addrs ∧ kv.2.length = 1) ∧ (m.map Prod.fst).Nodup) := by
  constructor
  · intro valid oracle addrs m calls h
    obtain ⟨hsub, hnd⟩ := fetchPricesGo_inv valid oracle addrs [] m calls h
    refine ⟨?_, hnd (by simp)⟩
    intro kv hkv
    rcases hsub kv hkv with h2 | h2
    · exact absurd h2 (List.not_mem_nil _)
    · exact h2
  · intro valid oracle addrs m calls h
    obtain ⟨hsub, hnd⟩ := fetchPricesDexGo_inv valid oracle addrs [] m calls h
    refine ⟨?_, hnd (by simp)⟩
    intro kv hkv
    rcases hsub kv hkv with h2 | h2
    · exact absurd h2 (List.not_mem_nil _)
    · exact h2

/-- Witness for C10: a run over the duplicated list `["T1", "T1"]`
produces a single singleton entry for `"T1"`. -/
theorem fetch_prices_result_invariants_witness :
    ((∀ kv ∈ [("T1", [("", (⟨some "9", some "9"⟩ : PriceInfo (Option String) (Option String)))])],
        kv.1 ∈ ["T1", "T1"] ∧ kv.2.length = 1) ∧
     (([("T1", [("", (⟨some "9", some "9"⟩ : PriceInfo (Option String) (Option String)))])].map
        Prod.fst).Nodup : Prop)) :=
  fetch_prices_result_invariants.1 (fun _ => true) (fun _ => .ok (some ⟨some "9", none⟩))
    ["T1", "T1"] [("T1", [("", ⟨some "9", some "9"⟩)])] ["T1", "T1"] (by decide)
